import Mathlib

/-!
Verification of the `Vec2` paired-array container from `starlark_map/src/vec2/mod.rs`.

`Vec2<A, B>` stores two equal-length arrays (the `aaa` array of `A`s and the `bbb`
array of `B`s) in a single allocation, tracking `len` and `cap`.  We embed the
container shallowly: the initialized prefixes of the two arrays are Lean lists,
`cap` is carried explicitly, and `len` is the length of the initialized prefix
(in the source, `len` is the field that delimits the initialized prefix of both
arrays).  Machine `usize` arithmetic is `Nat`; the `checked_add` overflow abort in
`reserve_slow` is modelled by an explicit comparison against `USIZE_MAX`, and
operations that can abort the process return `Option` (`none` = abort).
Destructor and deallocation effects are modelled as traces: the list of elements
whose destructor runs and the list of capacities whose layout is used to free.
-/

namespace StarlarkMap

/-- Maximum value of a 64-bit `usize`. -/
def USIZE_MAX : Nat := 2 ^ 64 - 1

/-- Maximum value of a 64-bit `isize`, the allocation-size limit of `Layout`. -/
def ISIZE_MAX : Nat := 2 ^ 63 - 1

/-- Size and alignment of a Rust type, the data `Layout` carries. -/
structure RustLayout where
  size : Nat
  align : Nat
deriving DecidableEq, Repr

/-- Largest size `Layout::from_size_align` accepts for a given alignment
(`isize::MAX - (align - 1)` in the standard library). -/
def maxSizeForAlign (align : Nat) : Nat := ISIZE_MAX - (align - 1)

/-- Round `x` up to a multiple of `a`.  For the power-of-two alignments Rust uses,
this equals the standard library's `(x + a - 1) & !(a - 1)`. -/
def roundUpTo (x a : Nat) : Nat := (x + a - 1) - (x + a - 1) % a

/-- Embedding of `Layout::array::<T>(n)`: size `n * size_of::<T>()`, alignment of `T`,
failing when the total size exceeds the `isize::MAX`-based limit. -/
def layoutArray (elem : RustLayout) (n : Nat) : Option RustLayout :=
  let size := elem.size * n
  if size ≤ maxSizeForAlign elem.align then some ⟨size, elem.align⟩ else none

/-- Embedding of `Layout::extend`: the follow-up array starts at `self.size()`
rounded up to the next alignment, the alignment is the max of the two. -/
def layoutExtend (s next : RustLayout) : Option (RustLayout × Nat) :=
  let new_align := max s.align next.align
  let offset := roundUpTo s.size next.align
  let new_size := offset + next.size
  if new_size ≤ maxSizeForAlign new_align then some (⟨new_size, new_align⟩, offset) else none

/-- The layout descriptor `Vec2Layout`: total allocation layout plus the byte
offset at which the `bbb` array starts. -/
structure Vec2Layout where
  layout : RustLayout
  offset_of_bbb : Nat
deriving DecidableEq, Repr

/-- Embedding of `Vec2Layout::new_checked(cap)`: `Layout::array::<A>(cap)` extended
by `Layout::array::<B>(cap)`. -/
def Vec2Layout.new_checked (A B : RustLayout) (cap : Nat) : Option Vec2Layout :=
  (layoutArray A cap).bind fun a =>
    (layoutArray B cap).bind fun b =>
      (layoutExtend a b).map fun lo => ⟨lo.1, lo.2⟩

/-- The paired vector.  `aaa` and `bbb` are the initialized prefixes of the two
arrays (`self.aaa()` and `self.bbb()` in the source); `cap` is the `cap` field.
The source's `len` field is the length of the initialized prefix. -/
structure Vec2 (α β : Type) where
  aaa : List α
  bbb : List β
  cap : Nat
deriving DecidableEq, Repr

namespace Vec2

variable {α β : Type}

/-- Embedding of `Vec2::len`. -/
def len (v : Vec2 α β) : Nat := v.aaa.length

/-- Embedding of `Vec2::capacity`. -/
def capacity (v : Vec2 α β) : Nat := v.cap

/-- Embedding of `Vec2::is_empty` (`self.len == 0`). -/
def is_empty (v : Vec2 α β) : Bool := v.len == 0

/-- The stored pairs in index order, as yielded by the iterators. -/
def pairs (v : Vec2 α β) : List (α × β) := v.aaa.zip v.bbb

/-- Representation invariant maintained by the container: both arrays hold the
same number of initialized elements and they fit in the capacity. -/
def WF (v : Vec2 α β) : Prop := v.bbb.length = v.aaa.length ∧ v.aaa.length ≤ v.cap

instance (v : Vec2 α β) : Decidable v.WF := by
  unfold WF; infer_instance

/-- Embedding of `Vec2::new`: empty, no allocation. -/
def new : Vec2 α β := ⟨[], [], 0⟩

/-- Embedding of `Vec2::with_capacity(cap)`. -/
def with_capacity (cap : Nat) : Vec2 α β :=
  if cap = 0 then new else ⟨[], [], cap⟩

/-- Embedding of `Vec2::MIN_NON_ZERO_CAP`, parametrized by `size_of::<(A, B)>()`. -/
def MIN_NON_ZERO_CAP (sz : Nat) : Nat :=
  if sz = 1 then 8 else if sz ≤ 1024 then 4 else 1

/-- Embedding of `Vec2::reserve_slow`.  `sz` is `size_of::<(A, B)>()`.  The
`checked_add(additional).expect("capacity overflow")` abort is `none`; the
`copy_nonoverlapping` into the fresh allocation preserves both prefixes. -/
def reserve_slow (sz : Nat) (v : Vec2 α β) (additional : Nat) : Option (Vec2 α β) :=
  if USIZE_MAX < v.len + additional then none
  else
    let required_cap := v.len + additional
    let new_cap := max required_cap (MIN_NON_ZERO_CAP sz)
    let new_cap := max new_cap (v.cap * 2)
    some ⟨v.aaa, v.bbb, new_cap⟩

/-- Embedding of `Vec2::reserve`: takes the slow path iff `cap - len < additional`. -/
def reserve (sz : Nat) (v : Vec2 α β) (additional : Nat) : Option (Vec2 α β) :=
  if v.cap - v.len < additional then v.reserve_slow sz additional else some v

/-- Embedding of `Vec2::push`: reserve room for one pair, then write `a` and `b`
at index `len` and increment `len`. -/
def push (sz : Nat) (v : Vec2 α β) (a : α) (b : β) : Option (Vec2 α β) :=
  (v.reserve sz 1).map fun w => ⟨w.aaa ++ [a], w.bbb ++ [b], w.cap⟩

/-- A sequence of `push` calls, one per pair in the list. -/
def pushAll (sz : Nat) (v : Vec2 α β) : List (α × β) → Option (Vec2 α β)
  | [] => some v
  | p :: ps => (v.push sz p.1 p.2).bind fun w => w.pushAll sz ps

/-- Embedding of `Vec2::get`: `Some` of the pair at `index` when `index < len`,
`None` otherwise.  A read-only accessor: it takes `&self` and returns the
container unchanged (here, it does not produce a new state at all). -/
def get (v : Vec2 α β) (index : Nat) : Option (α × β) :=
  if index < v.len then
    (v.aaa[index]?).bind fun a => (v.bbb[index]?).map fun b => (a, b)
  else none

/-- Embedding of `Vec2::remove`: `assert!(index < len)` (modelled as `none` on
violation, since the assert aborts), read the pair at `index`, shift the tails
of both arrays down by one (`ptr::copy`), decrement `len`. -/
def remove (v : Vec2 α β) (index : Nat) : Option ((α × β) × Vec2 α β) :=
  if index < v.len then
    (v.aaa[index]?).bind fun a => (v.bbb[index]?).map fun b =>
      ((a, b), (⟨v.aaa.eraseIdx index, v.bbb.eraseIdx index, v.cap⟩ : Vec2 α β))
  else none

/-- Effect of `Vec2::drop_in_place`: the elements of both arrays on which
`ptr::drop_in_place` runs the destructor, in index order. -/
def drop_in_place (v : Vec2 α β) : List α × List β := (v.aaa, v.bbb)

/-- Embedding of `Vec2::clear`: run `drop_in_place` on the `len` stored elements,
then set `len := 0`.  Returns the destruction trace together with the new state. -/
def clear (v : Vec2 α β) : (List α × List β) × Vec2 α β :=
  (v.drop_in_place, ⟨[], [], v.cap⟩)

/-- Embedding of `Vec2::pop`: `len.checked_sub(1)` yields `None` on an empty
container (leaving it unchanged); otherwise read the pair at `len - 1` and set
`len := len - 1`.  Returns the optional pair together with the post-state. -/
def pop (v : Vec2 α β) : Option (α × β) × Vec2 α β :=
  if v.len = 0 then (none, v)
  else
    let new_len := v.len - 1
    ((v.aaa[new_len]?).bind fun a => (v.bbb[new_len]?).map fun b => (a, b),
     (⟨v.aaa.take new_len, v.bbb.take new_len, v.cap⟩ : Vec2 α β))

/-- Trace of a container's destruction: elements destructed in each array, and
the capacities whose layout was used to free an allocation. -/
structure DropTrace (α β : Type) where
  droppedA : List α
  droppedB : List β
  freedCaps : List Nat
deriving DecidableEq, Repr

/-- Effect of `Vec2::dealloc_impl(data, cap)`: frees the allocation using the
layout computed for `cap`, unless `cap == 0`. -/
def dealloc_impl_trace (cap : Nat) : List Nat :=
  if cap ≠ 0 then [cap] else []

/-- Effect of `impl Drop for Vec2`: if `cap != 0`, run `drop_in_place` (destructing
the `len` initialized elements of both arrays) and then `dealloc` (freeing via the
layout for the current `cap`); otherwise do nothing. -/
def dropTrace (v : Vec2 α β) : DropTrace α β :=
  if v.cap ≠ 0 then
    ⟨(v.drop_in_place).1, (v.drop_in_place).2, dealloc_impl_trace v.cap⟩
  else ⟨[], [], []⟩

/-- Modelled from the spec: `insertion_sort` / `slice_swap_shift` from
`starlark_map/src/sorting/insertion.rs` are not among the provided sources.  The
spec describes the small path as a stable in-place insertion sort operating on
both arrays in lock-step (every shift on the `aaa` array mirrored on the `bbb`
array), so we model `Vec2::sort_insertion_by` as a stable insertion sort of the
zipped pair list, elements compared by `compare · · ≠ Ordering.gt`. -/
def sort_insertion_by (cmp : α × β → α × β → Ordering) (v : Vec2 α β) : Vec2 α β :=
  let sorted := List.insertionSort (fun x y => cmp x y ≠ Ordering.gt) v.pairs
  ⟨sorted.map Prod.fst, sorted.map Prod.snd, v.cap⟩

/-- The `MAX_INSERTION` constant of `Vec2::sort_by`. -/
def MAX_INSERTION : Nat := 20

/-- Embedding of `Vec2::sort_by`: insertion path when `len <= MAX_INSERTION`,
otherwise `mem::take` the container, collect `into_iter` into a `Vec` of pairs,
sort it with the standard library's stable comparison sort (modelled as
`List.mergeSort`), and push every pair back into the now-empty container. -/
def sort_by (sz : Nat) (cmp : α × β → α × β → Ordering) (v : Vec2 α β) :
    Option (Vec2 α β) :=
  if v.len ≤ MAX_INSERTION then some (v.sort_insertion_by cmp)
  else
    let entries := List.mergeSort v.pairs (fun x y => cmp x y != Ordering.gt)
    pushAll sz new entries

end Vec2

/-! ## Helper lemmas -/

namespace Vec2

variable {α β : Type}

theorem push_ok (sz : Nat) (v : Vec2 α β) (a : α) (b : β) (hwf : v.WF)
    (hov : v.len + 1 ≤ USIZE_MAX) :
    ∃ w, v.push sz a b = some w ∧ w.aaa = v.aaa ++ [a] ∧ w.bbb = v.bbb ++ [b] ∧
      w.WF ∧ v.cap ≤ w.cap := by
  obtain ⟨hlen, hcap⟩ := hwf
  simp only [len] at hov
  by_cases h : v.cap - v.aaa.length < 1
  · refine ⟨⟨v.aaa ++ [a], v.bbb ++ [b],
      max (max (v.aaa.length + 1) (MIN_NON_ZERO_CAP sz)) (v.cap * 2)⟩, ?_, rfl, rfl, ?_, ?_⟩
    · simp only [push, reserve, reserve_slow, len]
      rw [if_pos h, if_neg (by omega)]
      rfl
    · refine ⟨by simp [hlen], ?_⟩
      simp only [List.length_append, List.length_cons, List.length_nil]
      omega
    · show v.cap ≤ max (max (v.aaa.length + 1) (MIN_NON_ZERO_CAP sz)) (v.cap * 2)
      omega
  · refine ⟨⟨v.aaa ++ [a], v.bbb ++ [b], v.cap⟩, ?_, rfl, rfl, ?_, le_refl _⟩
    · simp only [push, reserve, len]
      rw [if_neg h]
      rfl
    · refine ⟨by simp [hlen], ?_⟩
      simp only [List.length_append, List.length_cons, List.length_nil]
      omega

theorem pushAll_ok (sz : Nat) (l : List (α × β)) (v : Vec2 α β) (hwf : v.WF)
    (hov : v.len + l.length ≤ USIZE_MAX) :
    ∃ w, v.pushAll sz l = some w ∧ w.aaa = v.aaa ++ l.map Prod.fst ∧
      w.bbb = v.bbb ++ l.map Prod.snd ∧ w.WF ∧ v.cap ≤ w.cap := by
  induction l generalizing v with
  | nil => exact ⟨v, rfl, by simp [pushAll], by simp [pushAll], hwf, le_refl _⟩
  | cons p ps ih =>
    simp only [List.length_cons] at hov
    obtain ⟨w, hw, ha, hb, hwf', hcap'⟩ := push_ok sz v p.1 p.2 hwf (by omega)
    have hlen' : w.len = v.len + 1 := by simp [len, ha]
    obtain ⟨u, hu, hua, hub, hwfu, hcapu⟩ := ih w hwf' (by omega)
    refine ⟨u, ?_, ?_, ?_, hwfu, le_trans hcap' hcapu⟩
    · simp [pushAll, hw, hu]
    · simp [hua, ha]
    · simp [hub, hb]

theorem new_wf : (new : Vec2 α β).WF := ⟨rfl, Nat.le_refl 0⟩

theorem push_fast (sz : Nat) (v : Vec2 α β) (a : α) (b : β) (hroom : v.len < v.cap) :
    v.push sz a b = some ⟨v.aaa ++ [a], v.bbb ++ [b], v.cap⟩ := by
  simp only [push, reserve]
  rw [if_neg (by simp only [len] at hroom ⊢; omega)]
  rfl

theorem pushAll_cap (sz : Nat) (l : List (α × β)) (v : Vec2 α β) (hwf : v.WF)
    (hfit : v.len + l.length ≤ v.cap) :
    ∃ w, v.pushAll sz l = some w ∧ w.aaa = v.aaa ++ l.map Prod.fst ∧
      w.bbb = v.bbb ++ l.map Prod.snd ∧ w.cap = v.cap := by
  induction l generalizing v with
  | nil => exact ⟨v, rfl, by simp [pushAll], by simp [pushAll], rfl⟩
  | cons p ps ih =>
    obtain ⟨hlen, hcap⟩ := hwf
    simp only [List.length_cons, len] at hfit
    have hpush := push_fast sz v p.1 p.2 (by simp only [len]; omega)
    have hwf' : (⟨v.aaa ++ [p.1], v.bbb ++ [p.2], v.cap⟩ : Vec2 α β).WF :=
      ⟨by simp [hlen], by simp only [len, List.length_append, List.length_cons,
        List.length_nil]; omega⟩
    obtain ⟨w, hw, ha, hb, hc⟩ := ih ⟨v.aaa ++ [p.1], v.bbb ++ [p.2], v.cap⟩ hwf'
      (by simp only [len, List.length_append, List.length_cons, List.length_nil]; omega)
    refine ⟨w, ?_, ?_, ?_, hc⟩
    · simp [pushAll, hpush, hw]
    · simp [ha]
    · simp [hb]

theorem zip_map_fst_snd {γ δ : Type} (l : List (γ × δ)) :
    (l.map Prod.fst).zip (l.map Prod.snd) = l := by
  have h := List.zip_unzip l
  rwa [List.unzip_eq_map] at h

theorem sort_insertion_by_pairs (cmp : α × β → α × β → Ordering) (v : Vec2 α β) :
    (v.sort_insertion_by cmp).pairs =
      List.insertionSort (fun x y => cmp x y ≠ Ordering.gt) v.pairs := by
  simp only [sort_insertion_by, pairs]
  exact zip_map_fst_snd _

theorem remove_ok (v : Vec2 α β) (index : Nat) (hlen : v.bbb.length = v.aaa.length)
    (hi : index < v.len) :
    ∃ a b, v.aaa[index]? = some a ∧ v.bbb[index]? = some b ∧
      v.remove index =
        some ((a, b), (⟨v.aaa.eraseIdx index, v.bbb.eraseIdx index, v.cap⟩ : Vec2 α β)) := by
  have hia : index < v.aaa.length := hi
  have hib : index < v.bbb.length := by omega
  refine ⟨v.aaa[index], v.bbb[index], List.getElem?_eq_getElem hia,
    List.getElem?_eq_getElem hib, ?_⟩
  simp [remove, len, hia, List.getElem?_eq_getElem hia, List.getElem?_eq_getElem hib]

/-- The comparator of the spec's sort scenario: order pairs of naturals
lexicographically ascending, as `(xa, xb).cmp(&(ya, yb))` does in the source's
`test_sort_insertion_by`. -/
def pairLexCmp (x y : ℕ × ℕ) : Ordering :=
  (compare x.1 y.1).then (compare x.2 y.2)

end Vec2

theorem roundUpTo_le (x a : Nat) (ha : 0 < a) : x ≤ roundUpTo x a := by
  unfold roundUpTo
  have := Nat.mod_lt (x + a - 1) ha
  omega

theorem dvd_roundUpTo (x a : Nat) : a ∣ roundUpTo x a := by
  unfold roundUpTo
  have := Nat.mod_add_div (x + a - 1) a
  exact ⟨(x + a - 1) / a, by omega⟩

theorem roundUpTo_eq_self (x a : Nat) (ha : 0 < a) (h : a ∣ x) : roundUpTo x a = x := by
  obtain ⟨c, rfl⟩ := h
  unfold roundUpTo
  have h2 : (a * c + a - 1) % a = (a - 1) % a := by
    rw [show a * c + a - 1 = a - 1 + a * c by omega]
    exact Nat.add_mul_mod_self_left (a - 1) a c
  have h3 : (a - 1) % a = a - 1 := Nat.mod_eq_of_lt (by omega)
  omega

/-! ## Claim theorems -/

namespace Vec2

variable {α β : Type}

/-- **C1**: for every sequence of `n` pushes into a container created by `new()`,
`len()` returns `n`, `get(i)` for every `i < n` returns exactly the `i`-th pushed
pair unaltered, and `get(i)` for `i ≥ n` returns `none`; `get` takes the container
by shared reference and does not mutate it (in this embedding it is a pure
function of the state). -/
theorem push_get_spec (sz : Nat) (l : List (α × β)) (hov : l.length ≤ USIZE_MAX) :
    ∃ v : Vec2 α β, Vec2.pushAll sz Vec2.new l = some v ∧ v.len = l.length ∧
      (∀ i, i < l.length → v.get i = l[i]?) ∧
      (∀ i, l.length ≤ i → v.get i = none) := by
  obtain ⟨v, hv, ha, hb, hwf, -⟩ :=
    pushAll_ok sz l new new_wf (by simpa [len, new] using hov)
  simp only [new, List.nil_append] at ha hb
  have hlen : v.len = l.length := by simp [len, ha]
  refine ⟨v, hv, hlen, ?_, ?_⟩
  · intro i hi
    have h1 : v.aaa[i]? = some (l[i].1) := by
      simp [ha, List.getElem?_map, List.getElem?_eq_getElem hi]
    have h2 : v.bbb[i]? = some (l[i].2) := by
      simp [hb, List.getElem?_map, List.getElem?_eq_getElem hi]
    simp [get, hlen, hi, h1, h2, List.getElem?_eq_getElem hi]
  · intro i hi
    simp [get, hlen, Nat.not_lt.mpr hi]

/-- **C2**: `remove(index)` aborts when `index ≥ len`; when `index < len` it
returns the pair stored at `index`, the length decreases by exactly 1, the
capacity and every pair at a position `k < index` are unchanged, and every pair
previously at a position `k > index` is afterwards at `k - 1`, value unchanged. -/
theorem remove_spec (v : Vec2 α β) (index : Nat) (hwf : v.WF) :
    (v.len ≤ index → v.remove index = none) ∧
    (index < v.len → ∃ a b v', v.remove index = some ((a, b), v') ∧
      v.get index = some (a, b) ∧ v'.len = v.len - 1 ∧ v'.cap = v.cap ∧
      (∀ k, k < index → v'.get k = v.get k) ∧
      (∀ k, index < k → k < v.len → v'.get (k - 1) = v.get k)) := by
  obtain ⟨hlen, hcap⟩ := hwf
  constructor
  · intro hge
    simp [remove, Nat.not_lt.mpr hge]
  · intro hi
    have hia : index < v.aaa.length := hi
    obtain ⟨a, b, ha, hb, hrm⟩ := remove_ok v index hlen hi
    refine ⟨a, b, ⟨v.aaa.eraseIdx index, v.bbb.eraseIdx index, v.cap⟩, hrm, ?_, ?_, rfl, ?_, ?_⟩
    · simp [get, len, hia, ha, hb]
    · simp [len, List.length_eraseIdx_of_lt hia]
    · intro k hk
      have hk1 : k < (v.aaa.eraseIdx index).length := by
        rw [List.length_eraseIdx_of_lt hia]; omega
      have hk2 : k < v.aaa.length := by omega
      simp [get, len, hk1, hk2,
        List.getElem?_eraseIdx_of_lt _ _ _ hk]
    · intro k hk1 hk2
      have hka : k < v.aaa.length := hk2
      have e1 : k - 1 + 1 = k := by omega
      have hlt : k - 1 < (v.aaa.eraseIdx index).length := by
        rw [List.length_eraseIdx_of_lt hia]; omega
      have ha' : (v.aaa.eraseIdx index)[k - 1]? = v.aaa[k]? := by
        rw [List.getElem?_eraseIdx_of_ge _ _ _ (by omega), e1]
      have hb' : (v.bbb.eraseIdx index)[k - 1]? = v.bbb[k]? := by
        rw [List.getElem?_eraseIdx_of_ge _ _ _ (by omega), e1]
      simp [get, len, hlt, hka, ha', hb']

/-- Witness for **C2** at a concrete input. -/
theorem remove_spec_witness :
    (⟨[1, 2], [3, 4], 2⟩ : Vec2 ℕ ℕ).WF ∧
      (((⟨[1, 2], [3, 4], 2⟩ : Vec2 ℕ ℕ).len ≤ 0 →
          (⟨[1, 2], [3, 4], 2⟩ : Vec2 ℕ ℕ).remove 0 = none) ∧
        (0 < (⟨[1, 2], [3, 4], 2⟩ : Vec2 ℕ ℕ).len →
          ∃ a b v', (⟨[1, 2], [3, 4], 2⟩ : Vec2 ℕ ℕ).remove 0 = some ((a, b), v') ∧
            (⟨[1, 2], [3, 4], 2⟩ : Vec2 ℕ ℕ).get 0 = some (a, b) ∧
            v'.len = (⟨[1, 2], [3, 4], 2⟩ : Vec2 ℕ ℕ).len - 1 ∧
            v'.cap = (⟨[1, 2], [3, 4], 2⟩ : Vec2 ℕ ℕ).cap ∧
            (∀ k, k < 0 → v'.get k = (⟨[1, 2], [3, 4], 2⟩ : Vec2 ℕ ℕ).get k) ∧
            (∀ k, 0 < k → k < (⟨[1, 2], [3, 4], 2⟩ : Vec2 ℕ ℕ).len →
              v'.get (k - 1) = (⟨[1, 2], [3, 4], 2⟩ : Vec2 ℕ ℕ).get k))) :=
  ⟨by decide, remove_spec (⟨[1, 2], [3, 4], 2⟩ : Vec2 ℕ ℕ) 0 (by decide)⟩

/-- Witness for **C1** at a concrete input. -/
theorem push_get_spec_witness :
    (([(1, 2), (3, 4)] : List (ℕ × ℕ)).length ≤ USIZE_MAX) ∧
      (∃ v : Vec2 ℕ ℕ, Vec2.pushAll 16 Vec2.new [(1, 2), (3, 4)] = some v ∧
        v.len = ([(1, 2), (3, 4)] : List (ℕ × ℕ)).length ∧
        (∀ i, i < ([(1, 2), (3, 4)] : List (ℕ × ℕ)).length →
          v.get i = ([(1, 2), (3, 4)] : List (ℕ × ℕ))[i]?) ∧
        (∀ i, ([(1, 2), (3, 4)] : List (ℕ × ℕ)).length ≤ i → v.get i = none)) :=
  ⟨by decide, push_get_spec 16 [(1, 2), (3, 4)] (by decide)⟩

/-- **C8**: `clear()` destructs all `len` stored pairs (the destruction trace is
exactly the two initialized prefixes, each of length `len`), and afterwards
`len() = 0`, `is_empty() = true`, and `capacity()` is unchanged. -/
theorem clear_spec (v : Vec2 α β) (hwf : v.WF) :
    (v.clear).2.len = 0 ∧ (v.clear).2.is_empty = true ∧
      (v.clear).2.capacity = v.capacity ∧
      (v.clear).1.1 = v.aaa ∧ (v.clear).1.1.length = v.len ∧
      (v.clear).1.2 = v.bbb ∧ (v.clear).1.2.length = v.len := by
  obtain ⟨hlen, -⟩ := hwf
  exact ⟨rfl, rfl, rfl, rfl, rfl, rfl, hlen⟩

/-- Witness for **C8** at a concrete input. -/
theorem clear_spec_witness :
    (⟨[1], [2], 3⟩ : Vec2 ℕ ℕ).WF ∧
      (((⟨[1], [2], 3⟩ : Vec2 ℕ ℕ).clear).2.len = 0 ∧
        ((⟨[1], [2], 3⟩ : Vec2 ℕ ℕ).clear).2.is_empty = true ∧
        ((⟨[1], [2], 3⟩ : Vec2 ℕ ℕ).clear).2.capacity = (⟨[1], [2], 3⟩ : Vec2 ℕ ℕ).capacity ∧
        ((⟨[1], [2], 3⟩ : Vec2 ℕ ℕ).clear).1.1 = (⟨[1], [2], 3⟩ : Vec2 ℕ ℕ).aaa ∧
        ((⟨[1], [2], 3⟩ : Vec2 ℕ ℕ).clear).1.1.length = (⟨[1], [2], 3⟩ : Vec2 ℕ ℕ).len ∧
        ((⟨[1], [2], 3⟩ : Vec2 ℕ ℕ).clear).1.2 = (⟨[1], [2], 3⟩ : Vec2 ℕ ℕ).bbb ∧
        ((⟨[1], [2], 3⟩ : Vec2 ℕ ℕ).clear).1.2.length = (⟨[1], [2], 3⟩ : Vec2 ℕ ℕ).len) :=
  ⟨by decide, clear_spec (⟨[1], [2], 3⟩ : Vec2 ℕ ℕ) (by decide)⟩

/-- **C9**: `pop()` on an empty container returns `none` and leaves the container
unchanged; `pop()` after a single `push(a, b)` into an empty container returns
exactly `(a, b)` and leaves the container empty; in general `pop()` on a
non-empty container removes and returns the last pair, decreases `len` by 1, and
leaves the pairs before the last one unchanged. -/
theorem pop_spec (sz : Nat) (v : Vec2 α β) (a : α) (b : β) (hwf : v.WF) :
    (v.len = 0 → v.pop = (none, v)) ∧
    (∃ v₁ : Vec2 α β, Vec2.push sz Vec2.new a b = some v₁ ∧
      v₁.pop = (some (a, b), ⟨[], [], v₁.cap⟩) ∧ v₁.pop.2.len = 0) ∧
    (0 < v.len → ∃ p v', v.pop = (some p, v') ∧ v.get (v.len - 1) = some p ∧
      v'.len = v.len - 1 ∧
      (∀ k, k < v.len - 1 → v'.get k = v.get k)) := by
  obtain ⟨hlen, hcap⟩ := hwf
  refine ⟨?_, ?_, ?_⟩
  · intro h0
    simp [pop, h0]
  · refine ⟨⟨[a], [b], max (max 1 (MIN_NON_ZERO_CAP sz)) 0⟩, ?_, ?_, ?_⟩
    · simp only [push, reserve, reserve_slow, new, len, List.length_nil]
      rw [if_pos (by omega), if_neg (by simp [USIZE_MAX])]
      rfl
    · simp [pop, len]
    · simp [pop, len]
  · intro hpos
    have hpos' : 0 < v.aaa.length := hpos
    have hna : v.aaa.length - 1 < v.aaa.length := by omega
    have hnb : v.aaa.length - 1 < v.bbb.length := by omega
    refine ⟨(v.aaa[v.aaa.length - 1], v.bbb[v.aaa.length - 1]),
      ⟨v.aaa.take (v.aaa.length - 1), v.bbb.take (v.aaa.length - 1), v.cap⟩, ?_, ?_, ?_, ?_⟩
    · simp [pop, len, Nat.pos_iff_ne_zero.mp hpos',
        List.getElem?_eq_getElem hna, List.getElem?_eq_getElem hnb]
    · simp [get, len, hna, List.getElem?_eq_getElem hna, List.getElem?_eq_getElem hnb]
    · simp only [len, List.length_take]
      omega
    · intro k hk
      have hk' : k < v.aaa.length - 1 := hk
      have hk2 : k < v.aaa.length := by omega
      have hk1 : k < (v.aaa.take (v.aaa.length - 1)).length := by
        simp only [List.length_take]; omega
      simp [get, len, hk1, hk2, hk', List.getElem?_take_of_lt hk', List.length_take]

/-- Witness for **C9** at a concrete input. -/
theorem pop_spec_witness :
    (⟨[1, 2], [5, 6], 2⟩ : Vec2 ℕ ℕ).WF ∧
      (((⟨[1, 2], [5, 6], 2⟩ : Vec2 ℕ ℕ).len = 0 →
          (⟨[1, 2], [5, 6], 2⟩ : Vec2 ℕ ℕ).pop = (none, ⟨[1, 2], [5, 6], 2⟩)) ∧
        (∃ v₁ : Vec2 ℕ ℕ, Vec2.push 16 Vec2.new 7 8 = some v₁ ∧
          v₁.pop = (some (7, 8), ⟨[], [], v₁.cap⟩) ∧ v₁.pop.2.len = 0) ∧
        (0 < (⟨[1, 2], [5, 6], 2⟩ : Vec2 ℕ ℕ).len →
          ∃ p v', (⟨[1, 2], [5, 6], 2⟩ : Vec2 ℕ ℕ).pop = (some p, v') ∧
            (⟨[1, 2], [5, 6], 2⟩ : Vec2 ℕ ℕ).get ((⟨[1, 2], [5, 6], 2⟩ : Vec2 ℕ ℕ).len - 1) =
              some p ∧
            v'.len = (⟨[1, 2], [5, 6], 2⟩ : Vec2 ℕ ℕ).len - 1 ∧
            (∀ k, k < (⟨[1, 2], [5, 6], 2⟩ : Vec2 ℕ ℕ).len - 1 →
              v'.get k = (⟨[1, 2], [5, 6], 2⟩ : Vec2 ℕ ℕ).get k))) :=
  ⟨by decide, pop_spec 16 (⟨[1, 2], [5, 6], 2⟩ : Vec2 ℕ ℕ) 7 8 (by decide)⟩

/-- **C10**: `pop()` and `remove(index)` (with `index < len`) leave `capacity()`
unchanged; neither calls `dealloc` or replaces the allocation in the source, and
in the embedding the post-state keeps the `cap` field intact, only the length
and the element contents change. -/
theorem pop_remove_capacity (v : Vec2 α β) (index : Nat) (hwf : v.WF) :
    (v.pop).2.capacity = v.capacity ∧
    (index < v.len → ∃ p v', v.remove index = some (p, v') ∧
      v'.capacity = v.capacity) := by
  obtain ⟨hlen, hcap⟩ := hwf
  constructor
  · by_cases h0 : v.len = 0
    · simp [pop, h0]
    · simp [pop, h0, capacity]
  · intro hi
    obtain ⟨a, b, -, -, hrm⟩ := remove_ok v index hlen hi
    exact ⟨(a, b), _, hrm, rfl⟩

/-- Witness for **C10** at a concrete input. -/
theorem pop_remove_capacity_witness :
    (⟨[1, 2], [3, 4], 4⟩ : Vec2 ℕ ℕ).WF ∧
      ((((⟨[1, 2], [3, 4], 4⟩ : Vec2 ℕ ℕ).pop).2.capacity =
          (⟨[1, 2], [3, 4], 4⟩ : Vec2 ℕ ℕ).capacity) ∧
        (1 < (⟨[1, 2], [3, 4], 4⟩ : Vec2 ℕ ℕ).len →
          ∃ p v', (⟨[1, 2], [3, 4], 4⟩ : Vec2 ℕ ℕ).remove 1 = some (p, v') ∧
            v'.capacity = (⟨[1, 2], [3, 4], 4⟩ : Vec2 ℕ ℕ).capacity)) :=
  ⟨by decide, pop_remove_capacity (⟨[1, 2], [3, 4], 4⟩ : Vec2 ℕ ℕ) 1 (by decide)⟩

/-- **C4**: dropping a container with an allocation (`cap > 0`) destructs every
initialized element of both arrays exactly once (the destruction trace is exactly
the two initialized prefixes, each of length `len`) and frees the allocation
exactly once, using the layout computed for the current `cap`; a container with
`cap = 0` destructs nothing and frees nothing. -/
theorem drop_spec (v : Vec2 α β) (hwf : v.WF) :
    (0 < v.cap → v.dropTrace.droppedA = v.aaa ∧ v.dropTrace.droppedA.length = v.len ∧
      v.dropTrace.droppedB = v.bbb ∧ v.dropTrace.droppedB.length = v.len ∧
      v.dropTrace.freedCaps = [v.cap]) ∧
    (v.cap = 0 → v.dropTrace = ⟨[], [], []⟩) := by
  obtain ⟨hlen, -⟩ := hwf
  constructor
  · intro hpos
    have hne : v.cap ≠ 0 := by omega
    simp [dropTrace, drop_in_place, dealloc_impl_trace, hne, len, hlen]
  · intro h0
    simp [dropTrace, h0]

/-- Witness for **C4** at a concrete input. -/
theorem drop_spec_witness :
    (⟨[5], [6], 2⟩ : Vec2 ℕ ℕ).WF ∧
      ((0 < (⟨[5], [6], 2⟩ : Vec2 ℕ ℕ).cap →
        (⟨[5], [6], 2⟩ : Vec2 ℕ ℕ).dropTrace.droppedA = (⟨[5], [6], 2⟩ : Vec2 ℕ ℕ).aaa ∧
        (⟨[5], [6], 2⟩ : Vec2 ℕ ℕ).dropTrace.droppedA.length = (⟨[5], [6], 2⟩ : Vec2 ℕ ℕ).len ∧
        (⟨[5], [6], 2⟩ : Vec2 ℕ ℕ).dropTrace.droppedB = (⟨[5], [6], 2⟩ : Vec2 ℕ ℕ).bbb ∧
        (⟨[5], [6], 2⟩ : Vec2 ℕ ℕ).dropTrace.droppedB.length = (⟨[5], [6], 2⟩ : Vec2 ℕ ℕ).len ∧
        (⟨[5], [6], 2⟩ : Vec2 ℕ ℕ).dropTrace.freedCaps = [(⟨[5], [6], 2⟩ : Vec2 ℕ ℕ).cap]) ∧
      ((⟨[5], [6], 2⟩ : Vec2 ℕ ℕ).cap = 0 →
        (⟨[5], [6], 2⟩ : Vec2 ℕ ℕ).dropTrace = ⟨[], [], []⟩)) :=
  ⟨by decide, drop_spec (⟨[5], [6], 2⟩ : Vec2 ℕ ℕ) (by decide)⟩

/-- **C6**: `reserve(additional)` aborts when `len + additional` overflows
`usize`; otherwise it returns a state with `capacity() ≥ len + additional` and
the elements untouched; when growth is needed the new capacity is
`max(len + additional, MIN_NON_ZERO_CAP, 2 * cap)`, and when the free capacity
already covers `additional`, `reserve` changes nothing. -/
theorem reserve_spec (sz : Nat) (v : Vec2 α β) (additional : Nat) (hwf : v.WF)
    (hcapmax : v.cap ≤ USIZE_MAX) :
    (USIZE_MAX < v.len + additional → v.reserve sz additional = none) ∧
    (v.len + additional ≤ USIZE_MAX → ∃ v', v.reserve sz additional = some v' ∧
      v.len + additional ≤ v'.capacity ∧ v'.aaa = v.aaa ∧ v'.bbb = v.bbb ∧
      (v.cap - v.len < additional →
        v'.cap = max (max (v.len + additional) (MIN_NON_ZERO_CAP sz)) (v.cap * 2)) ∧
      (additional ≤ v.cap - v.len → v' = v)) := by
  obtain ⟨hlen, hcap⟩ := hwf
  have hl : v.len = v.aaa.length := rfl
  constructor
  · intro hov
    have h1 : v.cap - v.len < additional := by omega
    simp only [reserve, reserve_slow]
    rw [if_pos h1, if_pos hov]
  · intro hle
    by_cases h : v.cap - v.len < additional
    · refine ⟨⟨v.aaa, v.bbb,
        max (max (v.len + additional) (MIN_NON_ZERO_CAP sz)) (v.cap * 2)⟩,
        ?_, ?_, rfl, rfl, fun _ => rfl, fun hc => absurd hc (by omega)⟩
      · simp only [reserve, reserve_slow]
        rw [if_pos h, if_neg (by omega)]
      · show v.len + additional ≤ max (max (v.len + additional) (MIN_NON_ZERO_CAP sz)) (v.cap * 2)
        omega
    · refine ⟨v, ?_, ?_, rfl, rfl, fun hc => absurd hc h, fun _ => rfl⟩
      · simp only [reserve]
        rw [if_neg h]
      · show v.len + additional ≤ v.cap
        omega

/-- Witness for **C6** at a concrete input. -/
theorem reserve_spec_witness :
    (⟨[1], [2], 1⟩ : Vec2 ℕ ℕ).WF ∧ (⟨[1], [2], 1⟩ : Vec2 ℕ ℕ).cap ≤ USIZE_MAX ∧
      ((USIZE_MAX < (⟨[1], [2], 1⟩ : Vec2 ℕ ℕ).len + 3 →
          (⟨[1], [2], 1⟩ : Vec2 ℕ ℕ).reserve 16 3 = none) ∧
        ((⟨[1], [2], 1⟩ : Vec2 ℕ ℕ).len + 3 ≤ USIZE_MAX →
          ∃ v', (⟨[1], [2], 1⟩ : Vec2 ℕ ℕ).reserve 16 3 = some v' ∧
            (⟨[1], [2], 1⟩ : Vec2 ℕ ℕ).len + 3 ≤ v'.capacity ∧
            v'.aaa = (⟨[1], [2], 1⟩ : Vec2 ℕ ℕ).aaa ∧
            v'.bbb = (⟨[1], [2], 1⟩ : Vec2 ℕ ℕ).bbb ∧
            ((⟨[1], [2], 1⟩ : Vec2 ℕ ℕ).cap - (⟨[1], [2], 1⟩ : Vec2 ℕ ℕ).len < 3 →
              v'.cap = max (max ((⟨[1], [2], 1⟩ : Vec2 ℕ ℕ).len + 3) (MIN_NON_ZERO_CAP 16))
                ((⟨[1], [2], 1⟩ : Vec2 ℕ ℕ).cap * 2)) ∧
            (3 ≤ (⟨[1], [2], 1⟩ : Vec2 ℕ ℕ).cap - (⟨[1], [2], 1⟩ : Vec2 ℕ ℕ).len →
              v' = ⟨[1], [2], 1⟩))) :=
  ⟨by decide, by decide,
    reserve_spec 16 (⟨[1], [2], 1⟩ : Vec2 ℕ ℕ) 3 (by decide) (by decide)⟩

/-- **C7**: `with_capacity(0)` is `new()`; `with_capacity(cap)` has length 0 and
capacity `cap`; a subsequent sequence of exactly `cap` pushes never triggers
reallocation, with `capacity()` equal to `cap` after every prefix of those
pushes. -/
theorem with_capacity_spec (sz cap : Nat) (l : List (α × β)) (hlen : l.length = cap) :
    (Vec2.with_capacity 0 : Vec2 α β) = Vec2.new ∧
    (Vec2.with_capacity cap : Vec2 α β).len = 0 ∧
    (Vec2.with_capacity cap : Vec2 α β).capacity = cap ∧
    (∀ j, j ≤ cap → ∃ w : Vec2 α β,
      (Vec2.with_capacity cap : Vec2 α β).pushAll sz (l.take j) = some w ∧
      w.len = j ∧ w.capacity = cap) := by
  have hwc : (with_capacity cap : Vec2 α β) = ⟨[], [], cap⟩ := by
    by_cases hc : cap = 0
    · subst hc; rfl
    · simp [with_capacity, hc]
  refine ⟨rfl, by rw [hwc]; rfl, by rw [hwc]; rfl, ?_⟩
  intro j hj
  have hwf : (⟨[], [], cap⟩ : Vec2 α β).WF := ⟨rfl, by simp⟩
  obtain ⟨w, hw, ha, hb, hc⟩ := pushAll_cap sz (l.take j) ⟨[], [], cap⟩ hwf
    (by simp only [len, List.length_nil, List.length_take]; omega)
  refine ⟨w, by rw [hwc]; exact hw, ?_, by rw [capacity, hc]⟩
  simp only [len, ha, List.nil_append, List.length_map, List.length_take]
  omega

/-- Witness for **C7** at a concrete input. -/
theorem with_capacity_spec_witness :
    (([(1, 2), (3, 4)] : List (ℕ × ℕ)).length = 2) ∧
      ((Vec2.with_capacity 0 : Vec2 ℕ ℕ) = Vec2.new ∧
        (Vec2.with_capacity 2 : Vec2 ℕ ℕ).len = 0 ∧
        (Vec2.with_capacity 2 : Vec2 ℕ ℕ).capacity = 2 ∧
        (∀ j, j ≤ 2 → ∃ w : Vec2 ℕ ℕ,
          (Vec2.with_capacity 2 : Vec2 ℕ ℕ).pushAll 16
            (([(1, 2), (3, 4)] : List (ℕ × ℕ)).take j) = some w ∧
          w.len = j ∧ w.capacity = 2)) :=
  ⟨by decide, with_capacity_spec 16 2 [(1, 2), (3, 4)] (by decide)⟩

end Vec2

namespace Vec2

variable {α β : Type}

theorem bne_gt_iff_ne_gt (o : Ordering) : (o != Ordering.gt) = true ↔ o ≠ Ordering.gt := by
  cases o <;> decide

/-- **C3**: for every container and every comparator imposing a total order on
pairs, `sort_by` succeeds and reorders the stored pairs into a permutation of
the original pairs that is nondecreasing under the comparator; when
`len ≤ MAX_INSERTION (= 20)` it takes the in-place insertion-sort path, and the
drain-sort-push-back path otherwise; and the spec's scenario holds: pushing
`(1,2), (3,4), (2,3), (3,2)` and sorting lexicographically ascending yields the
order `(1,2), (2,3), (3,2), (3,4)`. -/
theorem sort_by_spec (sz : Nat) (cmp : α × β → α × β → Ordering) (v : Vec2 α β)
    (hwf : v.WF) (hov : v.len ≤ USIZE_MAX)
    (htrans : ∀ x y z : α × β, cmp x y ≠ Ordering.gt → cmp y z ≠ Ordering.gt →
      cmp x z ≠ Ordering.gt)
    (htotal : ∀ x y : α × β, cmp x y ≠ Ordering.gt ∨ cmp y x ≠ Ordering.gt) :
    (∃ v', v.sort_by sz cmp = some v' ∧ v'.pairs.Perm v.pairs ∧
      v'.pairs.Pairwise (fun x y => cmp x y ≠ Ordering.gt) ∧ v'.len = v.len ∧ v'.WF) ∧
    (v.len ≤ MAX_INSERTION → v.sort_by sz cmp = some (v.sort_insertion_by cmp)) ∧
    ((Vec2.pushAll 16 Vec2.new [((1 : ℕ), (2 : ℕ)), (3, 4), (2, 3), (3, 2)]).bind
        (Vec2.sort_by 16 pairLexCmp) =
      some ⟨[1, 2, 3, 3], [2, 3, 2, 4], 4⟩) := by
  obtain ⟨hlen, hcap⟩ := hwf
  have hpairs_len : v.pairs.length = v.aaa.length := by
    simp [pairs, hlen]
  refine ⟨?_, ?_, by decide⟩
  · by_cases hsmall : v.len ≤ MAX_INSERTION
    · haveI instTot : IsTotal (α × β) (fun x y => cmp x y ≠ Ordering.gt) := ⟨htotal⟩
      haveI instTrans : IsTrans (α × β) (fun x y => cmp x y ≠ Ordering.gt) := ⟨htrans⟩
      have hsp := sort_insertion_by_pairs cmp v
      refine ⟨v.sort_insertion_by cmp, ?_, ?_, ?_, ?_, ?_, ?_⟩
      · simp only [sort_by]
        rw [if_pos hsmall]
      · rw [hsp]
        exact List.perm_insertionSort _ _
      · rw [hsp]
        exact List.sorted_insertionSort _ v.pairs
      · simp only [sort_insertion_by, len, List.length_map, List.length_insertionSort]
        exact hpairs_len
      · simp only [sort_insertion_by, List.length_map]
      · simp only [sort_insertion_by, len, List.length_map, List.length_insertionSort]
        rw [hpairs_len]
        exact hcap
    · have htransb : ∀ a b c : α × β, (cmp a b != Ordering.gt) = true →
          (cmp b c != Ordering.gt) = true → (cmp a c != Ordering.gt) = true := by
        intro a b c h1 h2
        rw [bne_gt_iff_ne_gt] at h1 h2 ⊢
        exact htrans a b c h1 h2
      have htotalb : ∀ a b : α × β,
          ((cmp a b != Ordering.gt) || (cmp b a != Ordering.gt)) = true := by
        intro a b
        rcases htotal a b with h | h
        · rw [Bool.or_eq_true]
          exact Or.inl ((bne_gt_iff_ne_gt _).mpr h)
        · rw [Bool.or_eq_true]
          exact Or.inr ((bne_gt_iff_ne_gt _).mpr h)
      have hperm := List.mergeSort_perm v.pairs (fun x y => cmp x y != Ordering.gt)
      have hlen_ms : (List.mergeSort v.pairs (fun x y => cmp x y != Ordering.gt)).length
          = v.pairs.length := hperm.length_eq
      have hov' : v.aaa.length ≤ USIZE_MAX := hov
      obtain ⟨w, hw, ha, hb, hwfw, -⟩ := pushAll_ok sz
        (List.mergeSort v.pairs (fun x y => cmp x y != Ordering.gt)) new new_wf
        (by simp only [len, new, List.length_nil]; rw [hlen_ms, hpairs_len]; omega)
      have hwpairs : w.pairs = List.mergeSort v.pairs (fun x y => cmp x y != Ordering.gt) := by
        simp only [pairs, ha, hb, List.nil_append]
        exact zip_map_fst_snd _
      refine ⟨w, ?_, ?_, ?_, ?_, hwfw⟩
      · simp only [sort_by]
        rw [if_neg hsmall]
        exact hw
      · rw [hwpairs]
        exact hperm
      · rw [hwpairs]
        exact (List.sorted_mergeSort htransb htotalb v.pairs).imp
          fun h => (bne_gt_iff_ne_gt _).mp h
      · simp only [len, ha, new, List.nil_append, List.length_map]
        rw [hlen_ms]
        exact hpairs_len
  · intro hsmall
    simp only [sort_by]
    rw [if_pos hsmall]

/-- Witness for **C3** at a concrete input. -/
theorem sort_by_spec_witness :
    ((⟨[1, 0], [0, 1], 2⟩ : Vec2 (Fin 2) (Fin 2)).WF ∧
      (⟨[1, 0], [0, 1], 2⟩ : Vec2 (Fin 2) (Fin 2)).len ≤ USIZE_MAX ∧
      (∀ x y z : Fin 2 × Fin 2,
        (fun u w : Fin 2 × Fin 2 => (compare u.1 w.1).then (compare u.2 w.2)) x y ≠
            Ordering.gt →
          (fun u w : Fin 2 × Fin 2 => (compare u.1 w.1).then (compare u.2 w.2)) y z ≠
            Ordering.gt →
          (fun u w : Fin 2 × Fin 2 => (compare u.1 w.1).then (compare u.2 w.2)) x z ≠
            Ordering.gt) ∧
      (∀ x y : Fin 2 × Fin 2,
        (fun u w : Fin 2 × Fin 2 => (compare u.1 w.1).then (compare u.2 w.2)) x y ≠
            Ordering.gt ∨
          (fun u w : Fin 2 × Fin 2 => (compare u.1 w.1).then (compare u.2 w.2)) y x ≠
            Ordering.gt)) ∧
    ((∃ v', (⟨[1, 0], [0, 1], 2⟩ : Vec2 (Fin 2) (Fin 2)).sort_by 16
          (fun u w : Fin 2 × Fin 2 => (compare u.1 w.1).then (compare u.2 w.2)) = some v' ∧
        v'.pairs.Perm (⟨[1, 0], [0, 1], 2⟩ : Vec2 (Fin 2) (Fin 2)).pairs ∧
        v'.pairs.Pairwise (fun x y =>
          (fun u w : Fin 2 × Fin 2 => (compare u.1 w.1).then (compare u.2 w.2)) x y ≠
            Ordering.gt) ∧
        v'.len = (⟨[1, 0], [0, 1], 2⟩ : Vec2 (Fin 2) (Fin 2)).len ∧ v'.WF) ∧
      ((⟨[1, 0], [0, 1], 2⟩ : Vec2 (Fin 2) (Fin 2)).len ≤ MAX_INSERTION →
        (⟨[1, 0], [0, 1], 2⟩ : Vec2 (Fin 2) (Fin 2)).sort_by 16
            (fun u w : Fin 2 × Fin 2 => (compare u.1 w.1).then (compare u.2 w.2)) =
          some ((⟨[1, 0], [0, 1], 2⟩ : Vec2 (Fin 2) (Fin 2)).sort_insertion_by
            (fun u w : Fin 2 × Fin 2 => (compare u.1 w.1).then (compare u.2 w.2)))) ∧
      ((Vec2.pushAll 16 Vec2.new [((1 : ℕ), (2 : ℕ)), (3, 4), (2, 3), (3, 2)]).bind
          (Vec2.sort_by 16 pairLexCmp) =
        some ⟨[1, 2, 3, 3], [2, 3, 2, 4], 4⟩)) :=
  ⟨⟨by decide, by decide, by decide, by decide⟩,
    sort_by_spec 16 (fun u w : Fin 2 × Fin 2 => (compare u.1 w.1).then (compare u.2 w.2))
      (⟨[1, 0], [0, 1], 2⟩ : Vec2 (Fin 2) (Fin 2)) (by decide) (by decide) (by decide)
      (by decide)⟩

end Vec2

/-- Counterexample to **C5** as stated: for `A = [u8; 3]` (size 3, align 1),
`B = u32` (size 4, align 4) and `cap = 1`, the layout calculator returns the
offset 4 for the `bbb` array (this is also the repository's own
`test_layout_for` unit test), and 4 is not a multiple of `size_of::<A>() = 3`.
The B-array's starting offset is therefore not, in general, a multiple of A's
element size stride. -/
theorem layout_offset_not_multiple_of_size :
    Vec2Layout.new_checked ⟨3, 1⟩ ⟨4, 4⟩ 1 = some ⟨⟨8, 4⟩, 4⟩ ∧
      ¬((3 : Nat) ∣ 4) := by
  constructor
  · decide
  · decide

/-- **C5**, amended: for every `cap > 0` and element layouts whose alignments are
powers of two and divide the respective sizes (as Rust guarantees for any type),
a successful `Vec2Layout::new_checked` returns a layout and a `bbb`-offset such
that `cap` A-elements fit below the offset and `cap` B-elements fit above it
within the allocation (so the arrays do not overlap), the offset is aligned for
B, the A-array's start (`offset - cap * size_of::<A>()`, the address
`aaa_ptr` computes by stepping back from the B-array) is aligned for A, the
total alignment is the max of the two, and the offset is a multiple of A's
**alignment** (the code's own `debug_assert`) — not necessarily of A's size. -/
theorem layout_spec (A B : RustLayout) (cap i j : Nat)
    (hcap : 0 < cap) (hA : A.align = 2 ^ i) (hB : B.align = 2 ^ j)
    (hAsz : A.align ∣ A.size) (hBsz : B.align ∣ B.size)
    (L : Vec2Layout) (hsucc : Vec2Layout.new_checked A B cap = some L) :
    A.size * cap ≤ L.offset_of_bbb ∧
    L.offset_of_bbb + B.size * cap ≤ L.layout.size ∧
    B.align ∣ L.offset_of_bbb ∧
    A.align ∣ L.offset_of_bbb ∧
    A.align ∣ (L.offset_of_bbb - A.size * cap) ∧
    L.layout.align = max A.align B.align := by
  have hA0 : 0 < A.align := by rw [hA]; exact pow_pos (by norm_num) i
  have hB0 : 0 < B.align := by rw [hB]; exact pow_pos (by norm_num) j
  obtain ⟨⟨lsize, lalign⟩, loff⟩ := L
  by_cases h1 : A.size * cap ≤ maxSizeForAlign A.align
  · by_cases h2 : B.size * cap ≤ maxSizeForAlign B.align
    · by_cases h3 : roundUpTo (A.size * cap) B.align + B.size * cap ≤
        maxSizeForAlign (max A.align B.align)
      · simp [Vec2Layout.new_checked, layoutArray, layoutExtend, h1, h2, h3] at hsucc
        obtain ⟨⟨hsize, halign⟩, hoff⟩ := hsucc
        subst hsize; subst halign; subst hoff
        have hdvdB : B.align ∣ roundUpTo (A.size * cap) B.align := dvd_roundUpTo _ _
        have hdvdA : A.align ∣ roundUpTo (A.size * cap) B.align := by
          rcases Nat.le_total i j with hij | hji
          · exact dvd_trans (by rw [hA, hB]; exact pow_dvd_pow 2 hij) hdvdB
          · have hBA : B.align ∣ A.align := by rw [hA, hB]; exact pow_dvd_pow 2 hji
            have hx : B.align ∣ A.size * cap :=
              dvd_trans hBA (Dvd.dvd.mul_right hAsz cap)
            rw [roundUpTo_eq_self _ _ hB0 hx]
            exact Dvd.dvd.mul_right hAsz cap
        refine ⟨roundUpTo_le _ _ hB0, le_refl _, hdvdB, hdvdA, ?_, rfl⟩
        exact Nat.dvd_sub' hdvdA (Dvd.dvd.mul_right hAsz cap)
      · simp [Vec2Layout.new_checked, layoutArray, layoutExtend, h1, h2, h3] at hsucc
    · simp [Vec2Layout.new_checked, layoutArray, layoutExtend, h1, h2] at hsucc
  · simp [Vec2Layout.new_checked, layoutArray, layoutExtend, h1] at hsucc

/-- Witness for the amended **C5** at a concrete input. -/
theorem layout_spec_witness :
    ((0 : Nat) < 1 ∧ (⟨3, 1⟩ : RustLayout).align = 2 ^ 0 ∧
      (⟨4, 4⟩ : RustLayout).align = 2 ^ 2 ∧
      (⟨3, 1⟩ : RustLayout).align ∣ (⟨3, 1⟩ : RustLayout).size ∧
      (⟨4, 4⟩ : RustLayout).align ∣ (⟨4, 4⟩ : RustLayout).size ∧
      Vec2Layout.new_checked ⟨3, 1⟩ ⟨4, 4⟩ 1 = some ⟨⟨8, 4⟩, 4⟩) ∧
    ((⟨3, 1⟩ : RustLayout).size * 1 ≤ (⟨⟨8, 4⟩, 4⟩ : Vec2Layout).offset_of_bbb ∧
      (⟨⟨8, 4⟩, 4⟩ : Vec2Layout).offset_of_bbb + (⟨4, 4⟩ : RustLayout).size * 1 ≤
        (⟨⟨8, 4⟩, 4⟩ : Vec2Layout).layout.size ∧
      (⟨4, 4⟩ : RustLayout).align ∣ (⟨⟨8, 4⟩, 4⟩ : Vec2Layout).offset_of_bbb ∧
      (⟨3, 1⟩ : RustLayout).align ∣ (⟨⟨8, 4⟩, 4⟩ : Vec2Layout).offset_of_bbb ∧
      (⟨3, 1⟩ : RustLayout).align ∣
        ((⟨⟨8, 4⟩, 4⟩ : Vec2Layout).offset_of_bbb - (⟨3, 1⟩ : RustLayout).size * 1) ∧
      (⟨⟨8, 4⟩, 4⟩ : Vec2Layout).layout.align =
        max (⟨3, 1⟩ : RustLayout).align (⟨4, 4⟩ : RustLayout).align) :=
  ⟨⟨by decide, by decide, by decide, by decide, by decide, by decide⟩,
    layout_spec ⟨3, 1⟩ ⟨4, 4⟩ 1 0 2 (by decide) (by decide) (by decide) (by decide)
      (by decide) ⟨⟨8, 4⟩, 4⟩ (by decide)⟩

end StarlarkMap
